import Mathlib

/-!
Verification of the GEOLib structural serialization core against its
specification.  The development shallowly embeds the two source files

  * `geolib/models/dstability/serializer.py`
  * `geolib/models/dfoundations/internal.py`

as executable Lean definitions and proves the specified properties about
them.  Python dictionaries are modelled as insertion-ordered association
lists with the exact assignment semantics of CPython (assignment to an
existing key keeps its position and replaces the value; assignment to a
fresh key appends it).
-/

set_option autoImplicit false

namespace GeoLib

/-! ## Python dictionary model -/
/-- A Python `dict` with `String` keys: an association list in insertion
order. -/
abbrev PyDict (V : Type) := List (String × V)

/-- The keys of a dict, in insertion order (Python `list(d)`). -/
def dictKeys {V : Type} (d : PyDict V) : List String := d.map Prod.fst

/-- Python `d[k]` lookup (as an `Option`). -/
def dictFind {V : Type} (k : String) : PyDict V → Option V
  | [] => none
  | kv :: rest => if kv.1 = k then some kv.2 else dictFind k rest

/-- Python assignment `d[k] = v`: if `k` is already present its value is
replaced in place (insertion position kept), otherwise `(k, v)` is
appended at the end. -/
def dictSet {V : Type} (d : PyDict V) (k : String) (v : V) : PyDict V :=
  if k ∈ dictKeys d then
    d.map (fun kv => if kv.1 = k then (k, v) else kv)
  else
    d ++ [(k, v)]

/-- Python `d.update(other)`: assign every pair of `other` into `d`, in
order. -/
def dictUpdate {V : Type} (d other : PyDict V) : PyDict V :=
  other.foldl (fun acc kv => dictSet acc kv.1 kv.2) d

/-! ## Decimal rendering of natural numbers

The serializer builds file names with a Python f-string `f"_{i}"`, i.e.
the decimal numeral of the index.  `decimalStr` is the executable
embedding (fuel-driven, most significant digit first); `decDigits` is the
recursion-friendly version used for proofs; the two agree and the
rendering is injective. -/
/-- Fuel-driven decimal digit accumulation (most significant first). -/
def decDigitsCore : Nat → Nat → List Char → List Char
  | 0, _, acc => acc
  | fuel + 1, n, acc =>
    let d := Nat.digitChar (n % 10)
    if n / 10 = 0 then d :: acc
    else decDigitsCore fuel (n / 10) (d :: acc)

/-- Decimal string of a natural number: the embedding of Python `str(i)`. -/
def decimalStr (n : Nat) : String := (decDigitsCore (n + 1) n []).asString

/-- Recursion-friendly decimal digit list. -/
def decDigits (n : Nat) : List Char :=
  if _h : n < 10 then [Nat.digitChar n]
  else decDigits (n / 10) ++ [Nat.digitChar (n % 10)]
decreasing_by exact Nat.div_lt_self (by omega) (by omega)

/-- Base-10 value of a digit list (inverse of the rendering). -/
def decVal (l : List Char) : Nat := l.foldl (fun a c => 10 * a + (c.toNat - 48)) 0

/-! ## DStability serializer (`geolib/models/dstability/serializer.py`) -/

namespace DStability

/-- Modelled from the spec: the concrete `DStabilityStructure` class and
the reflection helper `get_filtered_type_hints` are not part of the given
sources.  Per the spec, the walker enumerates the document fields in
declaration order and resolves each field either as `list[X]` or as a
single structure; every structure type declares a stable
`structure_name()` and, for collection element types, a
`structure_group()` folder name.  A field declaration together with its
runtime value is therefore embedded as one of the two shapes below, a
rendered `model_dump_json` payload being an opaque string. -/
inductive DSField where
  | single (structureName : String) (json : String)
  | coll (structureGroup : String) (structureName : String) (elems : List String)
deriving DecidableEq

/-- A `DStabilityStructure` document: its top-level fields, with their
values, in declaration order. -/
abbrev DStabilityStructure := List DSField

/-- An entry of the serialized datastructure: either a rendered file or a
folder of rendered files. -/
inductive SEntry where
  | file (data : String)
  | folder (files : PyDict String)
deriving DecidableEq

/-- File name for element `i` of a collection:
`fn = element_type.structure_name() + suffix + ".json"` with
`suffix = "_" + str(i) if i > 0 else ""`. -/
def collFileName (structureName : String) (i : Nat) : String :=
  structureName ++ (if i > 0 then "_" ++ decimalStr i else "") ++ ".json"

/-- The inner folder dict: `for i, data in enumerate(getattr(self.ds,
field))`, each element assigned into a freshly created dict under its
derived file name. -/
def collFolderFiles (structureName : String) (elems : List String) : PyDict String :=
  elems.enum.foldl (fun acc p => dictSet acc (collFileName structureName p.1) p.2) []

/-- One iteration of `DStabilityBaseSerializer.serialize`: a `list[X]`
field creates (or resets) the folder entry `X.structure_group()` and
fills it with the enumerated files; any other field assigns the rendered
value at key `fieldtype.structure_name() + ".json"`. -/
def serializeField (acc : PyDict SEntry) : DSField → PyDict SEntry
  | .coll structureGroup structureName elems =>
      dictSet acc structureGroup (SEntry.folder (collFolderFiles structureName elems))
  | .single structureName json =>
      dictSet acc (structureName ++ ".json") (SEntry.file json)

/-- `DStabilityBaseSerializer.serialize`: fold the per-field step over the
document fields in declaration order, starting from an empty dict. -/
def serialize (ds : DStabilityStructure) : PyDict SEntry :=
  ds.foldl serializeField []

/-- The top-level key a field serializes to. -/
def topKey : DSField → String
  | .single structureName _ => structureName ++ ".json"
  | .coll structureGroup _ _ => structureGroup

/-- The entry a field serializes to. -/
def entryOf : DSField → SEntry
  | .single _ json => SEntry.file json
  | .coll _ structureName elems => SEntry.folder (collFolderFiles structureName elems)

/-- Modelled from the spec: the field declarations of the actual
`DStabilityStructure` derive pairwise-distinct top-level names (each
collection element type maps to one named folder of its own, and the
root file names are distinct). -/
def WellNamed (ds : DStabilityStructure) : Prop := (ds.map topKey).Nodup

instance (ds : DStabilityStructure) : Decidable (WellNamed ds) := by
  unfold WellNamed
  infer_instance

/-! ### Zip archive writer (`DStabilityInputZipSerializer.write`) -/
/-- One member of the zip archive, with the per-entry state the writer
determines.  A fresh `ZipInfo(name)` carries the fixed default timestamp
`(1980, 1, 1, 0, 0, 0)`, while its `create_system` tag depends on the
producing platform (0 on Windows, 3 elsewhere); the bytes of the
finalized archive are a function of this member list. -/
structure ZipEntry where
  filename : String
  data : String
  date_time : Nat × Nat × Nat × Nat × Nat × Nat
  create_system : Nat
deriving DecidableEq

/-- Archive member name for a file inside a folder: `folder + ffilename`
when the last character of the folder name is `"/"` (the
`folder[-1] == "/"` check; names produced by `structure_group` are
nonempty), else `folder + "/" + ffilename`. -/
def zipEntryName (folder ffilename : String) : String :=
  if folder.data.getLast? = some '/' then folder ++ ffilename
  else folder ++ "/" ++ ffilename

/-- The members written by the loop of `DStabilityInputZipSerializer.write`,
in order, before the final metadata pass: folders contribute their files
under combined names, plain entries are written at their own name.
`createSystemDefault` is the platform tag fresh entries get on the
producing system. -/
def zipRawEntries (createSystemDefault : Nat) (ds : DStabilityStructure) : List ZipEntry :=
  (serialize ds).flatMap fun fe =>
    match fe.2 with
    | SEntry.folder files =>
        files.map fun ff =>
          { filename := zipEntryName fe.1 ff.1, data := ff.2,
            date_time := (1980, 1, 1, 0, 0, 0), create_system := createSystemDefault }
    | SEntry.file data =>
        [{ filename := fe.1, data := data,
           date_time := (1980, 1, 1, 0, 0, 0), create_system := createSystemDefault }]

/-- `DStabilityInputZipSerializer.write`: after writing all members, the
final loop `for zfile in zip.filelist: zfile.create_system = 0` zeroes
the platform tag of every member before the archive is closed. -/
def zipWrite (createSystemDefault : Nat) (ds : DStabilityStructure) : List ZipEntry :=
  (zipRawEntries createSystemDefault ds).map fun e => { e with create_system := 0 }

/-! ### Folder writer (`DStabilityInputSerializer.write`) -/
/-- A node under the target directory: a regular file with its bytes, or
a directory with named children. -/
inductive FSNode where
  | file (content : String)
  | dir (children : List (String × FSNode))

/-- `folder.mkdir(parents=True, exist_ok=True)` for a name directly under
the target path: keep an existing directory, fail (`FileExistsError`) on
an existing regular file, create a fresh empty directory otherwise. -/
def mkdirExistOk (fs : PyDict FSNode) (name : String) : Except Unit (PyDict FSNode) :=
  match dictFind name fs with
  | some (FSNode.dir _) => Except.ok fs
  | some (FSNode.file _) => Except.error ()
  | none => Except.ok (dictSet fs name (FSNode.dir []))

/-- `fn.open("wb")` followed by a full write: create or truncate the
regular file `name`, failing if `name` is an existing directory. -/
def writeFileAt (fs : PyDict FSNode) (name content : String) :
    Except Unit (PyDict FSNode) :=
  match dictFind name fs with
  | some (FSNode.dir _) => Except.error ()
  | _ => Except.ok (dictSet fs name (FSNode.file content))

/-- Write one rendered file into the folder `folder` under the target
path (which the writer has just created or found). -/
def writeFileInDir (fs : PyDict FSNode) (folder fname content : String) :
    Except Unit (PyDict FSNode) :=
  match dictFind folder fs with
  | some (FSNode.dir children) =>
      match writeFileAt children fname content with
      | Except.ok children' => Except.ok (dictSet fs folder (FSNode.dir children'))
      | Except.error e => Except.error e
  | _ => Except.error ()

/-- One iteration of the writer loop of `DStabilityInputSerializer.write`:
a folder entry creates the folder (if needed) and writes each of its
files into it; a plain entry writes one file under the target path. -/
def writeEntry (fs : PyDict FSNode) : String × SEntry → Except Unit (PyDict FSNode)
  | (filename, SEntry.folder files) =>
      match mkdirExistOk fs filename with
      | Except.ok fs₁ => writeFiles files filename fs₁
      | Except.error e => Except.error e
  | (filename, SEntry.file data) => writeFileAt fs filename data
where
  /-- The inner loop over the files of one folder. -/
  writeFiles (files : List (String × String)) (folder : String) (fs : PyDict FSNode) :
      Except Unit (PyDict FSNode) :=
    match files with
    | [] => Except.ok fs
    | ff :: rest =>
        match writeFileInDir fs folder ff.1 ff.2 with
        | Except.ok fs₁ => writeFiles rest folder fs₁
        | Except.error e => Except.error e

/-- The outer loop of the writer over the serialized entries, in order. -/
def writeEntries (entries : List (String × SEntry)) (fs : PyDict FSNode) :
    Except Unit (PyDict FSNode) :=
  match entries with
  | [] => Except.ok fs
  | fe :: rest =>
      match writeEntry fs fe with
      | Except.ok fs₁ => writeEntries rest fs₁
      | Except.error e => Except.error e

/-- `DStabilityInputSerializer.write`: serialize the document, write every
entry under the target path, and return the given path. -/
def dstabilityWrite (filepath : String) (ds : DStabilityStructure)
    (fs : PyDict FSNode) : Except Unit (String × PyDict FSNode) :=
  match writeEntries (serialize ds) fs with
  | Except.ok fs' => Except.ok (filepath, fs')
  | Except.error e => Except.error e

end DStability

/-! ## DFoundations internals (`geolib/models/dfoundations/internal.py`) -/

namespace DFoundations

/-- The 0/1 `Bool` enum of `geolib.models.internal`. -/
inductive GeoBool where
  | FALSE
  | TRUE
deriving DecidableEq

namespace DFoundationsNenPileResults

/-- `DFoundationsNenPileResults.header_lines`: a class method that ignores
its `cls` argument and declares the fixed number of skippable leading
header lines of this structure text. -/
def header_lines (_cls : Unit) : Nat := 3

end DFoundationsNenPileResults

/-- `TimeOrderType` (IntEnum, values 1..7). -/
inductive TimeOrderType where
  | CPT_EXCAVATION_INSTALL
  | INSTALL_CPT_EXCAVATION
  | EXCAVATION_CPT_INSTALL
  | EXCAVATION_INSTALL_CPT
  | INSTALL_EXCAVATION_CPT
  | CPT_INSTALL_EXCAVATION
  | CPT_BEFORE_AND_AFTER_INSTALL
deriving DecidableEq

/-- `ExcavationType` (IntEnum, values 1..2). -/
inductive ExcavationType where
  | BEFORE
  | AFTER
deriving DecidableEq

/-- The `CPT` record as the collection operations use it: `add_cpt` and
`__getitem__` touch only `cptname` and `timeorder_type`; of the many
scalar metadata fields of the class, the required ones are kept so that
record equality stays meaningful (decimal literals embedded as
rationals), and the purely optional display metadata is omitted. -/
structure CPT where
  cptname : String
  excavation_type : ExcavationType
  timeorder_type : TimeOrderType
  groundlevel : Rat
  pre_excavation : Rat
deriving DecidableEq

/-- `CPTList.add_cpt`: force `timeorder_type` of every stored CPT to that
of the new one, append the new CPT and return the new length minus one. -/
def add_cpt (cpt_collection : List CPT) (cpt : CPT) : List CPT × Nat :=
  let updated := cpt_collection.map fun e => { e with timeorder_type := cpt.timeorder_type }
  let newCollection := updated ++ [cpt]
  (newCollection, newCollection.length - 1)

/-- `MainCalculationType` (IntEnum). -/
inductive MainCalculationType where
  | PRELIMINARY_DESIGN
  | VERIFICATION_DESIGN
deriving DecidableEq

/-- Integer value of a `MainCalculationType` member. -/
def MainCalculationType.value : MainCalculationType → Int
  | .PRELIMINARY_DESIGN => 0
  | .VERIFICATION_DESIGN => 1

/-- `SubCalculationType` (IntEnum, note the gap before 7). -/
inductive SubCalculationType where
  | VERIFICATION_DESIGN
  | VERIFICATION_COMPLETE
  | INDICATION_BEARING_CAPACITY
  | BEARING_CAPACITY_AT_FIXED_PILETIP_LEVELS
  | PILETIP_LEVELS_AND_NET_BEARING_CAPACITY
  | UNSUPPORTED
deriving DecidableEq

/-- Integer value of a `SubCalculationType` member. -/
def SubCalculationType.value : SubCalculationType → Int
  | .VERIFICATION_DESIGN => 0
  | .VERIFICATION_COMPLETE => 1
  | .INDICATION_BEARING_CAPACITY => 2
  | .BEARING_CAPACITY_AT_FIXED_PILETIP_LEVELS => 3
  | .PILETIP_LEVELS_AND_NET_BEARING_CAPACITY => 4
  | .UNSUPPORTED => 7

structure CalculationType where
  main_calculationtype : MainCalculationType
  sub_calculationtype : SubCalculationType
deriving DecidableEq

/-- `CalculationType.__init__`: the base constructor assigns the supplied
values (or the declared defaults), then the subtype value determines the
maintype, overwriting whatever was assigned. -/
def CalculationType.init (mainArg : Option MainCalculationType)
    (subArg : Option SubCalculationType) : CalculationType :=
  let base : CalculationType :=
    { main_calculationtype := mainArg.getD MainCalculationType.PRELIMINARY_DESIGN,
      sub_calculationtype := subArg.getD SubCalculationType.INDICATION_BEARING_CAPACITY }
  if base.sub_calculationtype.value ≥ 2 then
    { base with main_calculationtype := MainCalculationType.PRELIMINARY_DESIGN }
  else
    { base with main_calculationtype := MainCalculationType.VERIFICATION_DESIGN }

/-- The `Profile` record fields involved in `add_profile_if_unique`:
`name` is the uniqueness key and `excavation_level` the float the loop
overwrites; a representative subset of the remaining scalar declaration
fields is kept so record equality stays meaningful. -/
structure Profile where
  name : String
  matching_cpt : Int
  phreatic_level : Rat
  pile_tip_level : Rat
  excavation_level : Rat
deriving DecidableEq

/-- The excavation-level overwrite applied to every visited profile. -/
def overwriteLevel (profile q : Profile) : Profile :=
  { q with excavation_level := profile.excavation_level }

/-- The loop of `Profiles.add_profile_if_unique`: walking the stored
profiles in order, each visited profile first has its
`excavation_level` overwritten, then its name is compared; a match
raises `NameError` (`true` flag), leaving the list as mutated so far. -/
def addProfileLoop (profile : Profile) : List Profile → List Profile × Bool
  | [] => ([], false)
  | q :: rest =>
    let q' := overwriteLevel profile q
    if profile.name = q.name then (q' :: rest, true)
    else
      let r := addProfileLoop profile rest
      (q' :: r.1, r.2)

/-- `Profiles.add_profile_if_unique`: run the loop; on success append the
new profile, on a name collision report the error with the list left in
its partially mutated state. -/
def add_profile_if_unique (profiles : List Profile) (profile : Profile) :
    List Profile × Bool :=
  let r := addProfileLoop profile profiles
  if r.2 then r else (r.1 ++ [profile], false)

/-! ### Soil collection defaults (`SoilCollection`) -/
/-- The `Soil` record as the collection uses it: identified by name. -/
structure Soil where
  name : String
deriving DecidableEq

/-- Modelled from the spec: `Soil.default_soils()` (defined in
`internal_soil.py`, which is not among the given sources) returns a
fixed list of default soils; its exact contents are immaterial to the
claims. -/
def default_soils : List Soil := [⟨"Sand"⟩, ⟨"Clay"⟩, ⟨"Peat"⟩]

/-- Modelled from the spec: per the spec, each document instance must own
a freshly constructed copy of every mutable default (pydantic deep-copies
field defaults per instance).  The heap holds the per-instance soil
lists; an instance is its cell index. -/
structure SoilHeap where
  cells : List (List Soil)

/-- Construct a `SoilCollection`: allocate a fresh cell holding a fresh
copy of the declared default soil list; return the new heap and the new
instance. -/
def newSoilCollection (h : SoilHeap) : SoilHeap × Nat :=
  (⟨h.cells ++ [default_soils]⟩, h.cells.length)

/-- The soil list owned by instance `i`. -/
def soilListOf (h : SoilHeap) (i : Nat) : List Soil :=
  (h.cells[i]?).getD []

/-- `SoilCollection.add_soil_if_unique` on instance `i`: raise `NameError`
(`true` flag) if a stored soil has the same name, else append to that
instance's own list. -/
def add_soil_if_unique (h : SoilHeap) (i : Nat) (soil : Soil) : SoilHeap × Bool :=
  if (soilListOf h i).any (fun s => soil.name = s.name) then (h, true)
  else (⟨h.cells.set i (soilListOf h i ++ [soil])⟩, false)

/-! ### `CalculationOptions` name-derived toggle coupling -/
/-- A Python value as passed to or stored by `CalculationOptions`:
`None`, a `Bool` enum member, or a number (decimal literals embedded as
rationals). -/
inductive PyVal where
  | pynone
  | pybool (b : GeoBool)
  | pynum (q : Rat)
deriving DecidableEq

namespace CalculationOptions

/-- The declared field names of `CalculationOptions`, in declaration
order (`model_fields`). -/
def model_fields : List String :=
  ["is_rigid",
   "max_allowed_settlement_lim_state_str",
   "max_allowed_rel_rotation_lim_state_str",
   "max_allowed_settlement_lim_state_serv",
   "max_allowed_rel_rotation_lim_state_serv",
   "is_xi3_overruled", "factor_xi3",
   "is_xi4_overruled", "factor_xi4",
   "is_gamma_b_overruled", "factor_gamma_b",
   "is_gamma_s_overruled", "factor_gamma_s",
   "is_gamma_fnk_overruled", "factor_gamma_fnk",
   "is_area_overruled", "area",
   "is_qbmax_overruled", "qbmax",
   "is_qcza_low_overruled", "qcza_low",
   "is_qcza_high_overruled", "qcza_high",
   "is_ea_gem_overruled", "ea_gem",
   "is_suppress_qc_reduction",
   "is_overrule_excavation",
   "use_pile_group",
   "is_write_intermediate_results",
   "use_interaction_model",
   "use_almere_rules",
   "use_extra_almere_rules",
   "is_gamma_g_str_overruled", "factor_gamma_g_str",
   "is_gamma_coh_overruled", "factor_gamma_coh",
   "is_gamma_phi_overruled", "factor_gamma_phi",
   "is_gamma_fundr_overruled", "factor_gamma_fundr",
   "is_gamma_g_sls_overruled", "factor_gamma_g_sls",
   "is_gamma_cc_overruled", "factor_gamma_cc",
   "is_gamma_ca_overruled", "factor_gamma_ca",
   "is_keep_length_constant",
   "use_5_percent_limit",
   "load_factor_between_limit_1_and_2",
   "unit_weight_water",
   "use_compaction",
   "is_gamma_var_overruled", "factor_gamma_var",
   "is_gamma_st_overruled", "factor_gamma_st",
   "is_gamma_gamma_overruled", "factor_gamma_gamma",
   "surcharge",
   "use_piezometric_levels"]

/-- The declared default value of each field (Python float literals
embedded as the written decimals). -/
def field_default : String → PyVal
  | "is_rigid" => .pybool .TRUE
  | "max_allowed_settlement_lim_state_str" => .pynum 0
  | "max_allowed_rel_rotation_lim_state_str" => .pynum 100
  | "max_allowed_settlement_lim_state_serv" => .pynum 0
  | "max_allowed_rel_rotation_lim_state_serv" => .pynum 300
  | "factor_xi3" => .pynum 2
  | "factor_xi4" => .pynum 2
  | "factor_gamma_b" => .pynum 2
  | "factor_gamma_s" => .pynum 2
  | "factor_gamma_fnk" => .pynum 2
  | "area" => .pynum 1000
  | "qbmax" => .pynum 15
  | "qcza_low" => .pynum 12
  | "qcza_high" => .pynum 15
  | "ea_gem" => .pynum 100000
  | "use_pile_group" => .pybool .TRUE
  | "factor_gamma_g_str" => .pynum 1
  | "factor_gamma_coh" => .pynum 1
  | "factor_gamma_phi" => .pynum 1
  | "factor_gamma_fundr" => .pynum 1
  | "factor_gamma_g_sls" => .pynum 1
  | "factor_gamma_cc" => .pynum 1
  | "factor_gamma_ca" => .pynum 1
  | "load_factor_between_limit_1_and_2" => .pynum (833 / 1000)
  | "unit_weight_water" => .pynum (981 / 100)
  | "factor_gamma_var" => .pynum 1
  | "factor_gamma_st" => .pynum 1
  | "factor_gamma_gamma" => .pynum 1
  | "surcharge" => .pynum 0
  | "use_piezometric_levels" => .pybool .TRUE
  | _ => .pybool .FALSE

/-- One pass of CPython `str.replace("factor_", "")`: scan left to right,
dropping each non-overlapping occurrence of the pattern.  The fuel is
bounded by the length of the text. -/
def dropFactorCore : Nat → List Char → List Char
  | _, [] => []
  | 0, s => s
  | fuel + 1, c :: rest =>
    if ("factor_".toList).isPrefixOf (c :: rest) then
      dropFactorCore fuel (List.drop 6 rest)
    else c :: dropFactorCore fuel rest

/-- Python `field.replace("factor_", "")`. -/
def replaceFactor (s : String) : String :=
  (dropFactorCore s.length s.toList).asString

/-- `CalculationOptions.find_toggle`: transform a field name like
`factor_gamma_s` into `is_gamma_s_overruled`. -/
def find_toggle (field : String) : String :=
  "is_" ++ replaceFactor field ++ "_overruled"

/-- The toggle name as the claim words it: remove the `factor_` prefix
(when present) and wrap the remainder as `is_..._overruled`. -/
def toggleNameOfClaim (field : String) : String :=
  "is_" ++ (if ("factor_".toList).isPrefixOf field.toList
    then (field.toList.drop 7).asString else field) ++ "_overruled"

/-- The toggle-collection loop of `CalculationOptions.__init__`: for each
keyword in order, skip `None` values, derive the toggle name, and if it
is a declared field record it to be forced to `Bool.TRUE`. -/
def collectToggles (kwargs : List (String × PyVal)) : PyDict PyVal :=
  kwargs.foldl
    (fun toggles kv =>
      if kv.2 = PyVal.pynone then toggles
      else if find_toggle kv.1 ∈ model_fields then
        dictSet toggles (find_toggle kv.1) (PyVal.pybool GeoBool.TRUE)
      else toggles)
    []

/-- `CalculationOptions.__init__`: collect the toggles from the given
keywords, update the keyword dict with them (`kwargs.update(toggles)`),
and let the base constructor assign every declared field from the
updated keywords or its declared default.  The constructed object is the
resulting map from field name to value.  (The pydantic base class
rejects unknown keyword names, so an object is only constructed when the
keywords are declared fields.) -/
def init (kwargs : List (String × PyVal)) (field : String) : PyVal :=
  match dictFind field (dictUpdate kwargs (collectToggles kwargs)) with
  | some v => v
  | none => field_default field

end CalculationOptions

end DFoundations

end GeoLib

/-! ## Theorems -/

namespace GeoLib

/-! ### Dictionary lemmas -/
theorem dictKeys_dictSet {V : Type} (d : PyDict V) (k : String) (v : V) :
    dictKeys (dictSet d k v) = if k ∈ dictKeys d then dictKeys d else dictKeys d ++ [k] := by
  unfold dictSet dictKeys
  split
  · simp only [List.map_map]
    congr 1
    funext kv
    by_cases h : kv.1 = k <;> simp [h]
  · simp

theorem dictKeys_dictSet_nodup {V : Type} (d : PyDict V) (k : String) (v : V)
    (h : (dictKeys d).Nodup) : (dictKeys (dictSet d k v)).Nodup := by
  rw [dictKeys_dictSet]
  split
  · exact h
  · next hk => simpa [List.nodup_append] using ⟨h, hk⟩

theorem dictSet_fresh {V : Type} (d : PyDict V) (k : String) (v : V)
    (h : k ∉ dictKeys d) : dictSet d k v = d ++ [(k, v)] := by
  unfold dictSet
  simp [h]

theorem map_subst_of_not_mem {V : Type} (d : PyDict V) (k : String) (v : V)
    (h : k ∉ dictKeys d) : d.map (fun kv => if kv.1 = k then (k, v) else kv) = d := by
  induction d with
  | nil => rfl
  | cons kv rest ih =>
    simp only [dictKeys, List.map_cons, List.mem_cons] at h
    push_neg at h
    rw [List.map_cons, if_neg (fun he => h.1 he.symm), ih h.2]

theorem dictFind_eq_none {V : Type} (d : PyDict V) (k : String)
    (h : k ∉ dictKeys d) : dictFind k d = none := by
  induction d with
  | nil => rfl
  | cons kv rest ih =>
    simp only [dictKeys, List.map_cons, List.mem_cons] at h
    push_neg at h
    have h1 : ¬(kv.1 = k) := fun he => h.1 he.symm
    simp only [dictFind, if_neg h1]
    exact ih h.2

theorem dictFind_append_right {V : Type} (d d' : PyDict V) (k : String)
    (h : k ∉ dictKeys d) : dictFind k (d ++ d') = dictFind k d' := by
  induction d with
  | nil => rfl
  | cons kv rest ih =>
    simp only [dictKeys, List.map_cons, List.mem_cons] at h
    push_neg at h
    have h1 : ¬(kv.1 = k) := fun he => h.1 he.symm
    simp only [List.cons_append, dictFind, if_neg h1]
    exact ih h.2

theorem dictFind_append {V : Type} (d d' : PyDict V) (k : String) :
    dictFind k (d ++ d') = ((dictFind k d).orElse (fun _ => dictFind k d')) := by
  induction d with
  | nil => simp [dictFind, Option.orElse]
  | cons kv rest ih =>
    by_cases h : kv.1 = k
    · simp [dictFind, h, Option.orElse]
    · simp [dictFind, h, ih]

theorem dictFind_dictSet_self {V : Type} (d : PyDict V) (k : String) (v : V) :
    dictFind k (dictSet d k v) = some v := by
  unfold dictSet
  by_cases hmem : k ∈ dictKeys d
  · rw [if_pos hmem]
    induction d with
    | nil => simp [dictKeys] at hmem
    | cons kv rest ih =>
      by_cases h : kv.1 = k
      · rw [List.map_cons, if_pos h]
        simp [dictFind]
      · rw [List.map_cons, if_neg h]
        have hrest : k ∈ dictKeys rest := by
          simp only [dictKeys, List.map_cons, List.mem_cons] at hmem
          exact hmem.resolve_left (fun he => h he.symm)
        simp only [dictFind, if_neg h]
        exact ih hrest
  · rw [if_neg hmem, dictFind_append_right d _ k hmem]
    simp [dictFind]

theorem dictFind_dictSet_ne {V : Type} (d : PyDict V) (k k' : String) (v : V)
    (h : k' ≠ k) : dictFind k' (dictSet d k v) = dictFind k' d := by
  unfold dictSet
  by_cases hmem : k ∈ dictKeys d
  · rw [if_pos hmem]
    induction d with
    | nil => rfl
    | cons kv rest ih =>
      by_cases hk : kv.1 = k
      · rw [List.map_cons, if_pos hk]
        simp only [dictFind, if_neg (fun he : k = k' => h he.symm),
          if_neg (fun he : kv.1 = k' => h (hk ▸ he).symm)]
        by_cases hr : k ∈ dictKeys rest
        · exact ih hr
        · rw [map_subst_of_not_mem rest k v hr]
      · rw [List.map_cons, if_neg hk]
        simp only [dictFind]
        by_cases hk' : kv.1 = k'
        · simp [hk']
        · simp only [if_neg hk']
          have hrest : k ∈ dictKeys rest := by
            simp only [dictKeys, List.map_cons, List.mem_cons] at hmem
            exact hmem.resolve_left (fun he => hk he.symm)
          exact ih hrest
  · rw [if_neg hmem, dictFind_append]
    have hnone : dictFind k' [(k, v)] = none := by
      simp [dictFind, if_neg (fun he : k = k' => h he.symm)]
    rw [hnone]
    cases dictFind k' d <;> rfl

/-- Folding fresh assignments over a dict just appends the pairs. -/
theorem foldl_dictSet_of_nodup {V : Type} (ps : List (String × V)) (init : PyDict V)
    (h : (dictKeys init ++ ps.map Prod.fst).Nodup) :
    ps.foldl (fun acc p => dictSet acc p.1 p.2) init = init ++ ps := by
  induction ps generalizing init with
  | nil => simp
  | cons p rest ih =>
    obtain ⟨k, v⟩ := p
    simp only [List.map_cons] at h
    have hfresh : k ∉ dictKeys init := by
      intro hmem
      exact (List.disjoint_of_nodup_append h) hmem (by simp)
    have h' : (dictKeys (init ++ [(k, v)]) ++ rest.map Prod.fst).Nodup := by
      have he : dictKeys (init ++ [(k, v)]) ++ rest.map Prod.fst
          = dictKeys init ++ (k :: rest.map Prod.fst) := by
        simp [dictKeys]
      rw [he]
      exact h
    rw [List.foldl_cons]
    rw [show dictSet init (k, v).1 (k, v).2 = init ++ [(k, v)] from dictSet_fresh init k v hfresh]
    rw [ih (init ++ [(k, v)]) h']
    simp

/-- Lookup in a dict with distinct keys finds the unique stored pair. -/
theorem dictFind_of_mem {V : Type} (d : PyDict V) (h : (dictKeys d).Nodup)
    (k : String) (v : V) (hm : (k, v) ∈ d) : dictFind k d = some v := by
  induction d with
  | nil => simp at hm
  | cons kv rest ih =>
    simp only [dictKeys, List.map_cons, List.nodup_cons] at h
    rcases List.mem_cons.mp hm with h1 | h1
    · subst h1
      simp [dictFind]
    · have hne : kv.1 ≠ k := by
        intro he
        exact h.1 (he ▸ (List.mem_map_of_mem Prod.fst h1))
      simp only [dictFind, if_neg hne]
      exact ih h.2 h1

theorem decDigitsCore_eq (fuel n : Nat) (acc : List Char) (h : n < fuel) :
    decDigitsCore fuel n acc = decDigits n ++ acc := by
  induction fuel generalizing n acc with
  | zero => omega
  | succ fuel ih =>
    simp only [decDigitsCore]
    by_cases h0 : n / 10 = 0
    · have hn : n < 10 := by omega
      rw [if_pos h0, decDigits, dif_pos hn, Nat.mod_eq_of_lt hn]
      rfl
    · have hn : ¬(n < 10) := by omega
      rw [if_neg h0, decDigits, dif_neg hn]
      rw [ih (n / 10) _ (by omega)]
      simp

theorem digitChar_val (d : Nat) (h : d < 10) : (Nat.digitChar d).toNat - 48 = d := by
  interval_cases d <;> rfl

theorem decVal_decDigits (n : Nat) : decVal (decDigits n) = n := by
  induction n using Nat.strong_induction_on with
  | _ n ih =>
    by_cases h : n < 10
    · rw [decDigits, dif_pos h]
      simpa [decVal] using digitChar_val n h
    · rw [decDigits, dif_neg h]
      have hstep : decVal (decDigits (n / 10) ++ [Nat.digitChar (n % 10)])
          = 10 * decVal (decDigits (n / 10)) + ((Nat.digitChar (n % 10)).toNat - 48) := by
        simp [decVal, List.foldl_append]
      rw [hstep, ih (n / 10) (Nat.div_lt_self (by omega) (by omega)),
        digitChar_val _ (Nat.mod_lt n (by omega))]
      omega

theorem decDigits_inj {m n : Nat} (h : decDigits m = decDigits n) : m = n := by
  have hm := decVal_decDigits m
  rw [h, decVal_decDigits n] at hm
  exact hm.symm

theorem decimalStr_eq (n : Nat) : decimalStr n = (decDigits n).asString := by
  unfold decimalStr
  rw [decDigitsCore_eq (n + 1) n [] (Nat.lt_succ_self n)]
  simp

theorem decimalStr_inj {m n : Nat} (h : decimalStr m = decimalStr n) : m = n := by
  rw [decimalStr_eq, decimalStr_eq] at h
  exact decDigits_inj (congrArg String.data h)

namespace DStability

theorem collFileName_inj (sname : String) {i j : Nat}
    (h : collFileName sname i = collFileName sname j) : i = j := by
  unfold collFileName at h
  have hd := congrArg String.data h
  simp only [String.data_append, List.append_assoc] at hd
  have h1 := List.append_cancel_left hd
  by_cases hi : i > 0 <;> by_cases hj : j > 0
  · rw [if_pos hi, if_pos hj] at h1
    simp only [String.data_append, List.append_assoc] at h1
    have h2 := List.append_cancel_left h1
    have h3 := List.append_cancel_right h2
    exact decimalStr_inj (String.ext h3)
  · rw [if_pos hi, if_neg hj] at h1
    have hlen := congrArg List.length h1
    simp only [String.data_append, List.length_append, List.length_cons,
      List.length_nil] at hlen
    omega
  · rw [if_neg hi, if_pos hj] at h1
    have hlen := congrArg List.length h1
    simp only [String.data_append, List.length_append, List.length_cons,
      List.length_nil] at hlen
    omega
  · omega

theorem collFileName_injective (sname : String) :
    Function.Injective (collFileName sname) :=
  fun _ _ h => collFileName_inj sname h

theorem serializeField_eq (acc : PyDict SEntry) (fv : DSField) :
    serializeField acc fv = dictSet acc (topKey fv) (entryOf fv) := by
  cases fv <;> rfl

theorem collFolderFiles_eq (structureName : String) (elems : List String) :
    collFolderFiles structureName elems
      = elems.enum.map (fun p => (collFileName structureName p.1, p.2)) := by
  unfold collFolderFiles
  rw [← List.foldl_map (fun p : Nat × String => (collFileName structureName p.1, p.2))
      (fun acc (q : String × String) => dictSet acc q.1 q.2)]
  rw [foldl_dictSet_of_nodup _ [] ?hnd]
  · simp
  case hnd =>
    simp only [dictKeys, List.map_map, List.nil_append]
    have hn : (elems.enum.map Prod.fst).Nodup := List.nodup_enum_map_fst elems
    have h2 := hn.map (collFileName_injective structureName)
    rw [List.map_map] at h2
    exact h2

theorem serialize_eq (ds : DStabilityStructure) (h : WellNamed ds) :
    serialize ds = ds.map (fun fv => (topKey fv, entryOf fv)) := by
  unfold serialize
  have hstep : ds.foldl serializeField ([] : PyDict SEntry)
      = (ds.map (fun fv => (topKey fv, entryOf fv))).foldl
          (fun acc p => dictSet acc p.1 p.2) [] := by
    rw [List.foldl_map]
    congr 1
    funext acc fv
    exact serializeField_eq acc fv
  rw [hstep, foldl_dictSet_of_nodup _ [] ?hnd]
  · simp
  case hnd =>
    simp only [dictKeys, List.map_map, List.nil_append]
    simpa [Function.comp] using h

theorem serialize_keys (ds : DStabilityStructure) (h : WellNamed ds) :
    dictKeys (serialize ds) = ds.map topKey := by
  rw [serialize_eq ds h]
  simp [dictKeys, List.map_map, Function.comp]

theorem serialize_keys_nodup (ds : DStabilityStructure) (h : WellNamed ds) :
    (dictKeys (serialize ds)).Nodup := by
  rw [serialize_keys ds h]
  exact h

theorem dictKeys_collFolderFiles (structureName : String) (elems : List String) :
    dictKeys (collFolderFiles structureName elems)
      = (List.range elems.length).map (collFileName structureName) := by
  rw [collFolderFiles_eq]
  unfold dictKeys
  rw [List.map_map]
  rw [show (Prod.fst ∘ fun p : Nat × String => (collFileName structureName p.1, p.2))
      = (collFileName structureName) ∘ Prod.fst from rfl]
  rw [← List.map_map, List.enum_map_fst]

theorem collFolderFiles_keys_nodup (structureName : String) (elems : List String) :
    (dictKeys (collFolderFiles structureName elems)).Nodup := by
  rw [dictKeys_collFolderFiles]
  exact (List.nodup_range _).map (collFileName_injective structureName)

theorem dictFind_collFolderFiles (structureName : String) (elems : List String)
    (i : Nat) (hi : i < elems.length) :
    dictFind (collFileName structureName i) (collFolderFiles structureName elems)
      = some elems[i] := by
  have hkeys := collFolderFiles_keys_nodup structureName elems
  rw [collFolderFiles_eq] at hkeys ⊢
  apply dictFind_of_mem _ hkeys
  have hlen : i < elems.enum.length := by simpa [List.enum_length] using hi
  have hmem : (i, elems[i]) ∈ elems.enum := by
    have := List.getElem_mem hlen
    rwa [List.getElem_enum] at this
  exact List.mem_map_of_mem (fun p : Nat × String => (collFileName structureName p.1, p.2)) hmem

theorem dictFind_serialize (ds : DStabilityStructure) (h : WellNamed ds)
    (fv : DSField) (hmem : fv ∈ ds) :
    dictFind (topKey fv) (serialize ds) = some (entryOf fv) := by
  rw [serialize_eq ds h]
  apply dictFind_of_mem
  · have := serialize_keys_nodup ds h
    rwa [serialize_eq ds h] at this
  · exact List.mem_map_of_mem (fun fv => (topKey fv, entryOf fv)) hmem

theorem collFileName_explicit (sname : String) (i : Nat) :
    collFileName sname i = if i = 0 then sname ++ ".json"
      else sname ++ "_" ++ decimalStr i ++ ".json" := by
  unfold collFileName
  rcases Nat.eq_zero_or_pos i with h | h
  · subst h
    simp
  · rw [if_pos h, if_neg (by omega)]
    simp [String.append_assoc]

/-- C1: `DStabilityBaseSerializer.serialize` places the elements of every
`list[X]` field under a single folder named `X.structure_group()`,
writing element 0 to `<X.structure_name()>.json` and element `i > 0` to
`<X.structure_name()>_<i>.json`, while every non-list field is written to
`<fieldtype.structure_name()>.json` at the root of the output. -/
theorem c1_serialize_layout (ds : DStabilityStructure) (h : WellNamed ds) :
    (∀ structureGroup structureName elems,
        DSField.coll structureGroup structureName elems ∈ ds →
        ∃ files,
          dictFind structureGroup (serialize ds) = some (SEntry.folder files) ∧
          ∀ i : Nat, ∀ hi : i < elems.length,
            dictFind (if i = 0 then structureName ++ ".json"
                else structureName ++ "_" ++ decimalStr i ++ ".json") files
              = some elems[i]) ∧
    (∀ structureName json,
        DSField.single structureName json ∈ ds →
        dictFind (structureName ++ ".json") (serialize ds)
          = some (SEntry.file json)) := by
  constructor
  · intro structureGroup structureName elems hmem
    refine ⟨collFolderFiles structureName elems, ?_, ?_⟩
    · exact dictFind_serialize ds h _ hmem
    · intro i hi
      rw [← collFileName_explicit]
      exact dictFind_collFolderFiles structureName elems i hi
  · intro structureName json hmem
    exact dictFind_serialize ds h _ hmem

theorem c1_serialize_layout_witness :
    ∃ files,
      dictFind "geometries" (serialize [DSField.single "projectinfo" "A",
          DSField.coll "geometries" "Geometry" ["g0", "g1"]])
        = some (SEntry.folder files) ∧
      dictFind "Geometry.json" files = some "g0" ∧
      dictFind "Geometry_1.json" files = some "g1" ∧
      dictFind "projectinfo.json" (serialize [DSField.single "projectinfo" "A",
          DSField.coll "geometries" "Geometry" ["g0", "g1"]])
        = some (SEntry.file "A") := by
  have hds := c1_serialize_layout
    [DSField.single "projectinfo" "A", DSField.coll "geometries" "Geometry" ["g0", "g1"]]
    (by decide)
  obtain ⟨files, hf, hall⟩ := hds.1 "geometries" "Geometry" ["g0", "g1"] (by simp)
  refine ⟨files, hf, ?_, ?_, ?_⟩
  · have h0 := hall 0 (by decide)
    simpa using h0
  · have h1 := hall 1 (by decide)
    simpa [decimalStr] using h1
  · have hs := hds.2 "projectinfo" "A" (by simp)
    simpa using hs

/-- C3: the top-level entries produced by `serialize` follow the field
declaration order of the document, and within each collection folder the
files follow the element order of the list; the output is a function of
the declared field sequence alone. -/
theorem c3_serialize_order (ds : DStabilityStructure) (h : WellNamed ds) :
    dictKeys (serialize ds) = ds.map topKey ∧
    (∀ structureGroup structureName elems,
        DSField.coll structureGroup structureName elems ∈ ds →
        ∃ files,
          dictFind structureGroup (serialize ds) = some (SEntry.folder files) ∧
          dictKeys files = (List.range elems.length).map (collFileName structureName)) := by
  constructor
  · exact serialize_keys ds h
  · intro structureGroup structureName elems hmem
    exact ⟨collFolderFiles structureName elems, dictFind_serialize ds h _ hmem,
      dictKeys_collFolderFiles structureName elems⟩

theorem c3_serialize_order_witness :
    dictKeys (serialize [DSField.coll "layers" "Layer" ["a", "b", "c"],
        DSField.single "projectinfo" "B"])
      = ["layers", "projectinfo.json"] ∧
    ∃ files,
      dictFind "layers" (serialize [DSField.coll "layers" "Layer" ["a", "b", "c"],
          DSField.single "projectinfo" "B"]) = some (SEntry.folder files) ∧
      dictKeys files = ["Layer.json", "Layer_1.json", "Layer_2.json"] := by
  have hds := c3_serialize_order
    [DSField.coll "layers" "Layer" ["a", "b", "c"], DSField.single "projectinfo" "B"]
    (by decide)
  obtain ⟨files, hf, hkeys⟩ := hds.2 "layers" "Layer" ["a", "b", "c"] (by simp)
  refine ⟨?_, files, hf, ?_⟩
  · rw [hds.1]
    rfl
  · rw [hkeys]
    rfl

/-- C2: for equal documents the finalized archive member list is identical
whatever the producing platform default was, and every finalized member
has `create_system = 0`. -/
theorem c2_zip_reproducible (env₁ env₂ : Nat) (ds₁ ds₂ : DStabilityStructure)
    (h : ds₁ = ds₂) :
    zipWrite env₁ ds₁ = zipWrite env₂ ds₂ ∧
    ∀ e ∈ zipWrite env₁ ds₁, e.create_system = 0 := by
  subst h
  constructor
  · unfold zipWrite zipRawEntries
    rw [List.map_flatMap, List.map_flatMap]
    congr 1
    funext fe
    rcases fe with ⟨k, e⟩
    cases e with
    | folder files =>
      simp only [List.map_map]
      rfl
    | file data => rfl
  · intro e he
    unfold zipWrite at he
    obtain ⟨e', _, rfl⟩ := List.mem_map.mp he
    rfl

theorem c2_zip_reproducible_witness :
    zipWrite 3 [DSField.coll "geometries" "Geometry" ["g0", "g1"],
        DSField.single "projectinfo" "A"]
      = zipWrite 0 [DSField.coll "geometries" "Geometry" ["g0", "g1"],
        DSField.single "projectinfo" "A"] ∧
    ∀ e ∈ zipWrite 3 [DSField.coll "geometries" "Geometry" ["g0", "g1"],
        DSField.single "projectinfo" "A"], e.create_system = 0 :=
  c2_zip_reproducible 3 0
    [DSField.coll "geometries" "Geometry" ["g0", "g1"], DSField.single "projectinfo" "A"]
    [DSField.coll "geometries" "Geometry" ["g0", "g1"], DSField.single "projectinfo" "A"]
    rfl

theorem writeFileAt_frame {fs fs' : PyDict FSNode} {name content : String}
    (h : writeFileAt fs name content = Except.ok fs') :
    ∀ k, k ≠ name → dictFind k fs' = dictFind k fs := by
  intro k hk
  unfold writeFileAt at h
  cases hfind : dictFind name fs with
  | none =>
    rw [hfind] at h
    simp only [Except.ok.injEq] at h
    rw [← h]
    exact dictFind_dictSet_ne fs name k (FSNode.file content) hk
  | some node =>
    cases node with
    | file c =>
      rw [hfind] at h
      simp only [Except.ok.injEq] at h
      rw [← h]
      exact dictFind_dictSet_ne fs name k (FSNode.file content) hk
    | dir ch =>
      rw [hfind] at h
      cases h

theorem mkdirExistOk_frame {fs fs' : PyDict FSNode} {name : String}
    (h : mkdirExistOk fs name = Except.ok fs') :
    ∀ k, k ≠ name → dictFind k fs' = dictFind k fs := by
  intro k hk
  unfold mkdirExistOk at h
  cases hfind : dictFind name fs with
  | none =>
    rw [hfind] at h
    simp only [Except.ok.injEq] at h
    rw [← h]
    exact dictFind_dictSet_ne fs name k (FSNode.dir []) hk
  | some node =>
    cases node with
    | file c =>
      rw [hfind] at h
      cases h
    | dir ch =>
      rw [hfind] at h
      simp only [Except.ok.injEq] at h
      rw [← h]

/-- When the target already is a directory, `mkdir(exist_ok=True)` leaves
the file system untouched. -/
theorem mkdirExistOk_dir {fs fs' : PyDict FSNode} {name : String} {ch : List (String × FSNode)}
    (hfind : dictFind name fs = some (FSNode.dir ch))
    (h : mkdirExistOk fs name = Except.ok fs') : fs' = fs := by
  unfold mkdirExistOk at h
  rw [hfind] at h
  simp only [Except.ok.injEq] at h
  exact h.symm

theorem writeFileInDir_spec {fs fs' : PyDict FSNode} {folder fname content : String}
    (h : writeFileInDir fs folder fname content = Except.ok fs') :
    (∀ k, k ≠ folder → dictFind k fs' = dictFind k fs) ∧
    (∀ ch, dictFind folder fs = some (FSNode.dir ch) →
      ∃ ch', dictFind folder fs' = some (FSNode.dir ch') ∧
        ∀ f, f ≠ fname → dictFind f ch' = dictFind f ch) := by
  unfold writeFileInDir at h
  cases hfind : dictFind folder fs with
  | none =>
    rw [hfind] at h
    cases h
  | some node =>
    cases node with
    | file c =>
      rw [hfind] at h
      cases h
    | dir children =>
      rw [hfind] at h
      dsimp only at h
      cases hw : writeFileAt children fname content with
      | error e =>
        rw [hw] at h
        cases h
      | ok children' =>
        rw [hw] at h
        simp only [Except.ok.injEq] at h
        constructor
        · intro k hk
          rw [← h]
          exact dictFind_dictSet_ne fs folder k (FSNode.dir children') hk
        · intro ch hch
          have hc : ch = children := by
            injection hch with hch
            injection hch with hch
            exact hch.symm
          subst hc
          refine ⟨children', ?_, ?_⟩
          · rw [← h]
            exact dictFind_dictSet_self fs folder (FSNode.dir children')
          · intro f hf
            exact writeFileAt_frame hw f hf

theorem writeFiles_spec {files : List (String × String)} {folder : String}
    {fs fs' : PyDict FSNode}
    (h : writeEntry.writeFiles files folder fs = Except.ok fs') :
    (∀ k, k ≠ folder → dictFind k fs' = dictFind k fs) ∧
    (∀ ch, dictFind folder fs = some (FSNode.dir ch) →
      ∃ ch', dictFind folder fs' = some (FSNode.dir ch') ∧
        ∀ f, f ∉ dictKeys files → dictFind f ch' = dictFind f ch) := by
  induction files generalizing fs with
  | nil =>
    unfold writeEntry.writeFiles at h
    simp only [Except.ok.injEq] at h
    subst h
    exact ⟨fun k _ => rfl, fun ch hch => ⟨ch, hch, fun f _ => rfl⟩⟩
  | cons ff rest ih =>
    unfold writeEntry.writeFiles at h
    cases hstep : writeFileInDir fs folder ff.1 ff.2 with
    | error e =>
      rw [hstep] at h
      cases h
    | ok fs₁ =>
      rw [hstep] at h
      dsimp only at h
      obtain ⟨hframe₁, hin₁⟩ := writeFileInDir_spec hstep
      obtain ⟨hframe₂, hin₂⟩ := ih h
      constructor
      · intro k hk
        rw [hframe₂ k hk, hframe₁ k hk]
      · intro ch hch
        obtain ⟨ch₁, hch₁, hf₁⟩ := hin₁ ch hch
        obtain ⟨ch₂, hch₂, hf₂⟩ := hin₂ ch₁ hch₁
        refine ⟨ch₂, hch₂, ?_⟩
        intro f hf
        simp only [dictKeys, List.map_cons, List.mem_cons] at hf
        push_neg at hf
        rw [hf₂ f (by simpa [dictKeys] using hf.2), hf₁ f hf.1]

theorem writeEntry_spec {fs fs' : PyDict FSNode} {fe : String × SEntry}
    (h : writeEntry fs fe = Except.ok fs') :
    (∀ k, k ≠ fe.1 → dictFind k fs' = dictFind k fs) ∧
    (∀ files ch, fe.2 = SEntry.folder files →
      dictFind fe.1 fs = some (FSNode.dir ch) →
      ∃ ch', dictFind fe.1 fs' = some (FSNode.dir ch') ∧
        ∀ f, f ∉ dictKeys files → dictFind f ch' = dictFind f ch) := by
  obtain ⟨filename, e⟩ := fe
  cases e with
  | file data =>
    refine ⟨writeFileAt_frame h, ?_⟩
    intro files ch hfe
    cases hfe
  | folder files₀ =>
    simp only [writeEntry] at h
    cases hmk : mkdirExistOk fs filename with
    | error e =>
      rw [hmk] at h
      cases h
    | ok fs₁ =>
      rw [hmk] at h
      dsimp only at h
      obtain ⟨hframeW, hinW⟩ := writeFiles_spec h
      constructor
      · intro k hk
        rw [hframeW k hk, mkdirExistOk_frame hmk k hk]
      · intro files ch hfe hch
        cases hfe
        have hfs₁ : fs₁ = fs := mkdirExistOk_dir hch hmk
        subst hfs₁
        exact hinW ch hch

theorem writeEntries_spec {entries : List (String × SEntry)} {fs fs' : PyDict FSNode}
    (hnd : (entries.map Prod.fst).Nodup)
    (h : writeEntries entries fs = Except.ok fs') :
    (∀ name, name ∉ entries.map Prod.fst → dictFind name fs' = dictFind name fs) ∧
    (∀ name files, (name, SEntry.folder files) ∈ entries →
      ∀ ch, dictFind name fs = some (FSNode.dir ch) →
        ∃ ch', dictFind name fs' = some (FSNode.dir ch') ∧
          ∀ f, f ∉ dictKeys files → dictFind f ch' = dictFind f ch) := by
  induction entries generalizing fs with
  | nil =>
    unfold writeEntries at h
    simp only [Except.ok.injEq] at h
    subst h
    exact ⟨fun _ _ => rfl, fun name files hm => by cases hm⟩
  | cons fe rest ih =>
    unfold writeEntries at h
    cases hstep : writeEntry fs fe with
    | error e =>
      rw [hstep] at h
      cases h
    | ok fs₁ =>
      rw [hstep] at h
      dsimp only at h
      simp only [List.map_cons, List.nodup_cons] at hnd
      obtain ⟨hframe₁, hin₁⟩ := writeEntry_spec hstep
      obtain ⟨hframe₂, hin₂⟩ := ih hnd.2 h
      constructor
      · intro name hname
        simp only [List.map_cons, List.mem_cons] at hname
        push_neg at hname
        rw [hframe₂ name hname.2, hframe₁ name hname.1]
      · intro name files hmem ch hch
        rcases List.mem_cons.mp hmem with hhead | htail
        · have hname : name = fe.1 := by rw [← hhead]
          have hfe2 : fe.2 = SEntry.folder files := by rw [← hhead]
          obtain ⟨ch₁, hch₁, hf₁⟩ := hin₁ files ch hfe2 (hname ▸ hch)
          have hrest : name ∉ rest.map Prod.fst := hname ▸ hnd.1
          have hfind : dictFind name fs' = dictFind name fs₁ := hframe₂ name hrest
          refine ⟨ch₁, ?_, hf₁⟩
          rw [hfind, hname]
          exact hch₁
        · have hname : name ∈ rest.map Prod.fst :=
            List.mem_map_of_mem Prod.fst htail
          have hne : name ≠ fe.1 := by
            intro he
            exact hnd.1 (he ▸ hname)
          have hch₁ : dictFind name fs₁ = some (FSNode.dir ch) := by
            rw [hframe₁ name hne]
            exact hch
          exact hin₂ name files htail ch hch₁

/-- The serialized datastructure is a Python dict, so its keys are always
distinct, whatever the document. -/
theorem serialize_keys_nodup_always (ds : DStabilityStructure) :
    (dictKeys (serialize ds)).Nodup := by
  unfold serialize
  have hgen : ∀ acc : PyDict SEntry, (dictKeys acc).Nodup →
      (dictKeys (ds.foldl serializeField acc)).Nodup := by
    induction ds with
    | nil => intro acc h; exact h
    | cons fv rest ih =>
      intro acc h
      rw [List.foldl_cons]
      exact ih _ (by rw [serializeField_eq]; exact dictKeys_dictSet_nodup _ _ _ h)
  exact hgen [] (by simp [dictKeys])

theorem mem_of_dictFind {V : Type} {d : PyDict V} {k : String} {v : V}
    (h : dictFind k d = some v) : (k, v) ∈ d := by
  induction d with
  | nil => cases h
  | cons kv rest ih =>
    obtain ⟨k1, v1⟩ := kv
    by_cases hk : k1 = k
    · have h' : some v1 = some v := by simpa [dictFind, hk] using h
      injection h' with h'
      subst hk
      subst h'
      exact List.mem_cons_self _ _
    · have h' : dictFind k rest = some v := by simpa [dictFind, hk] using h
      exact List.mem_cons_of_mem _ (ih h')

/-- C6: a successful `DStabilityInputSerializer.write` returns the given
path, and the only entries it creates or changes under that path are the
ones named by the serialized structure: any pre-existing entry whose name
is not among the serialized top-level keys is untouched, and inside a
serialized folder any pre-existing child not named by that folder is
untouched. -/
theorem c6_write_frame (filepath : String) (ds : DStabilityStructure)
    (fs : PyDict FSNode) (ret : String) (fs' : PyDict FSNode)
    (h : dstabilityWrite filepath ds fs = Except.ok (ret, fs')) :
    ret = filepath ∧
    (∀ name, name ∉ dictKeys (serialize ds) → dictFind name fs' = dictFind name fs) ∧
    (∀ name files, dictFind name (serialize ds) = some (SEntry.folder files) →
      ∀ ch, dictFind name fs = some (FSNode.dir ch) →
        ∃ ch', dictFind name fs' = some (FSNode.dir ch') ∧
          ∀ f, f ∉ dictKeys files → dictFind f ch' = dictFind f ch) := by
  unfold dstabilityWrite at h
  cases hw : writeEntries (serialize ds) fs with
  | error e =>
    rw [hw] at h
    cases h
  | ok fs₁ =>
    rw [hw] at h
    dsimp only at h
    injection h with h
    injection h with h₁ h₂
    subst h₁
    subst h₂
    obtain ⟨hframe, hin⟩ := writeEntries_spec (serialize_keys_nodup_always ds) hw
    refine ⟨rfl, hframe, ?_⟩
    intro name files hfind ch hch
    exact hin name files (mem_of_dictFind hfind) ch hch

theorem c6_write_frame_witness :
    dictFind "notes.txt"
      [("notes.txt", FSNode.file "keep"),
       ("geometries", FSNode.dir [("old.json", FSNode.file "z"),
         ("Geometry.json", FSNode.file "g0")]),
       ("projectinfo.json", FSNode.file "A")]
      = dictFind "notes.txt"
        [("notes.txt", FSNode.file "keep"),
         ("geometries", FSNode.dir [("old.json", FSNode.file "z")])] ∧
    ∃ ch', dictFind "geometries"
        [("notes.txt", FSNode.file "keep"),
         ("geometries", FSNode.dir [("old.json", FSNode.file "z"),
           ("Geometry.json", FSNode.file "g0")]),
         ("projectinfo.json", FSNode.file "A")] = some (FSNode.dir ch') ∧
      dictFind "old.json" ch' = dictFind "old.json" [("old.json", FSNode.file "z")] := by
  have h := c6_write_frame "out"
    [DSField.coll "geometries" "Geometry" ["g0"], DSField.single "projectinfo" "A"]
    [("notes.txt", FSNode.file "keep"),
     ("geometries", FSNode.dir [("old.json", FSNode.file "z")])]
    "out"
    [("notes.txt", FSNode.file "keep"),
     ("geometries", FSNode.dir [("old.json", FSNode.file "z"),
       ("Geometry.json", FSNode.file "g0")]),
     ("projectinfo.json", FSNode.file "A")]
    rfl
  refine ⟨h.2.1 "notes.txt" (by decide), ?_⟩
  obtain ⟨ch', hch, hf⟩ := h.2.2 "geometries" [("Geometry.json", "g0")] rfl
    [("old.json", FSNode.file "z")] rfl
  exact ⟨ch', hch, hf "old.json" (by decide)⟩

end DStability

namespace DFoundations

/-- C7: `DFoundationsNenPileResults.header_lines()` returns the constant 3
for every invocation. -/
theorem c7_header_lines (cls : Unit) :
    DFoundationsNenPileResults.header_lines cls = 3 := rfl

/-- C8: after `add_cpt(cpt)` every stored CPT (the appended one included)
carries `cpt.timeorder_type`, `cpt` is the last element, and the returned
id equals the length of the collection minus one, the index of the new
CPT. -/
theorem c8_add_cpt (cpt_collection : List CPT) (cpt : CPT) :
    (∀ e ∈ (add_cpt cpt_collection cpt).1, e.timeorder_type = cpt.timeorder_type) ∧
    (add_cpt cpt_collection cpt).1.getLast? = some cpt ∧
    (add_cpt cpt_collection cpt).2 = (add_cpt cpt_collection cpt).1.length - 1 ∧
    (add_cpt cpt_collection cpt).1[(add_cpt cpt_collection cpt).2]? = some cpt := by
  refine ⟨?_, ?_, rfl, ?_⟩
  · intro e he
    simp only [add_cpt, List.mem_append, List.mem_map, List.mem_singleton] at he
    rcases he with ⟨x, _, rfl⟩ | rfl
    · rfl
    · rfl
  · simp [add_cpt]
  · simp only [add_cpt, List.length_append, List.length_map, List.length_singleton]
    rw [show cpt_collection.length + 1 - 1 = cpt_collection.length from rfl]
    rw [List.getElem?_append_right (by simp)]
    simp

/-- C10: every freshly constructed `CalculationType` has
`main_calculationtype = PRELIMINARY_DESIGN` exactly when the subtype
value is at least 2 (`VERIFICATION_DESIGN` otherwise), and the
caller-supplied maintype is ignored. -/
theorem c10_calculation_type_invariant (mainArg : Option MainCalculationType)
    (subArg : Option SubCalculationType) :
    ((CalculationType.init mainArg subArg).main_calculationtype
      = if (CalculationType.init mainArg subArg).sub_calculationtype.value ≥ 2
        then MainCalculationType.PRELIMINARY_DESIGN
        else MainCalculationType.VERIFICATION_DESIGN) ∧
    (∀ mainArg', CalculationType.init mainArg' subArg
      = CalculationType.init mainArg subArg) := by
  constructor
  · rcases subArg with _ | s
    · cases mainArg <;> rfl
    · cases s <;> cases mainArg <;> rfl
  · intro mainArg'
    rcases subArg with _ | s
    · cases mainArg <;> cases mainArg' <;> rfl
    · cases s <;> cases mainArg <;> cases mainArg' <;> rfl

theorem addProfileLoop_no_match (profile : Profile) (profiles : List Profile)
    (h : ∀ q ∈ profiles, q.name ≠ profile.name) :
    addProfileLoop profile profiles = (profiles.map (overwriteLevel profile), false) := by
  induction profiles with
  | nil => rfl
  | cons q rest ih =>
    have hq : ¬(profile.name = q.name) :=
      fun he => h q (List.mem_cons_self q rest) he.symm
    simp only [addProfileLoop, if_neg hq]
    rw [ih (fun p hp => h p (List.mem_cons_of_mem q hp))]
    rfl

theorem addProfileLoop_match (profile : Profile) (profiles : List Profile)
    (k : Nat) (hk : k < profiles.length)
    (hname : (profiles.get ⟨k, hk⟩).name = profile.name)
    (hbefore : ∀ j : Fin profiles.length, j.1 < k → (profiles.get j).name ≠ profile.name) :
    addProfileLoop profile profiles
      = ((profiles.take (k + 1)).map (overwriteLevel profile) ++ profiles.drop (k + 1),
         true) := by
  induction profiles generalizing k with
  | nil => simp at hk
  | cons q rest ih =>
    cases k with
    | zero =>
      have hq : profile.name = q.name := hname.symm
      simp only [addProfileLoop, if_pos hq]
      simp
    | succ k' =>
      have hq : ¬(profile.name = q.name) := by
        intro he
        exact hbefore ⟨0, by simp⟩ (Nat.succ_pos k') he.symm
      simp only [addProfileLoop, if_neg hq]
      have hk' : k' < rest.length := by simpa using hk
      rw [ih k' hk' (by simpa using hname)
        (fun j hj => hbefore ⟨j.1 + 1, by simp [j.2]⟩ (by simpa using hj))]
      simp [List.take_succ_cons, List.drop_succ_cons]

/-- C9: calling `Profiles.add_profile_if_unique(p)` with a stored profile
of the same name raises `NameError` without appending `p`, but the
operation is not atomic: every stored profile at an index up to and
including the first name match already has its `excavation_level`
overwritten with that of `p`; on success every stored profile is
overwritten and `p` is appended. -/
theorem c9_add_profile_partial_mutation (profiles : List Profile) (profile : Profile) :
    ((∀ q ∈ profiles, q.name ≠ profile.name) →
      add_profile_if_unique profiles profile
        = (profiles.map (overwriteLevel profile) ++ [profile], false)) ∧
    (∀ k, ∀ hk : k < profiles.length,
      (profiles.get ⟨k, hk⟩).name = profile.name →
      (∀ j : Fin profiles.length, j.1 < k → (profiles.get j).name ≠ profile.name) →
      add_profile_if_unique profiles profile
        = ((profiles.take (k + 1)).map (overwriteLevel profile) ++ profiles.drop (k + 1),
           true)) := by
  constructor
  · intro h
    unfold add_profile_if_unique
    rw [addProfileLoop_no_match profile profiles h]
    rfl
  · intro k hk hname hbefore
    unfold add_profile_if_unique
    rw [addProfileLoop_match profile profiles k hk hname hbefore]
    rfl

theorem c9_add_profile_partial_mutation_witness :
    add_profile_if_unique
      [⟨"p0", 1, 0, -10, 0⟩, ⟨"dup", 2, 0, -12, 1⟩, ⟨"p2", 3, 0, -14, 5⟩]
      ⟨"dup", 4, 0, -16, 9⟩
      = ([⟨"p0", 1, 0, -10, 9⟩, ⟨"dup", 2, 0, -12, 9⟩, ⟨"p2", 3, 0, -14, 5⟩], true) := by
  have h := (c9_add_profile_partial_mutation
    [⟨"p0", 1, 0, -10, 0⟩, ⟨"dup", 2, 0, -12, 1⟩, ⟨"p2", 3, 0, -14, 5⟩]
    ⟨"dup", 4, 0, -16, 9⟩).2 1 (by decide) (by decide) (by decide)
  rw [h]
  rfl

/-- C5: two separately constructed collections own independent defaults:
appending a soil to the first leaves the second unchanged and equal to
the declared default. -/
theorem c5_fresh_defaults (h0 : SoilHeap) (soil : Soil) :
    (newSoilCollection h0).2 ≠ (newSoilCollection (newSoilCollection h0).1).2 ∧
    soilListOf
      (add_soil_if_unique (newSoilCollection (newSoilCollection h0).1).1
        (newSoilCollection h0).2 soil).1
      (newSoilCollection (newSoilCollection h0).1).2
      = default_soils ∧
    soilListOf
      (add_soil_if_unique (newSoilCollection (newSoilCollection h0).1).1
        (newSoilCollection h0).2 soil).1
      (newSoilCollection (newSoilCollection h0).1).2
      = soilListOf (newSoilCollection (newSoilCollection h0).1).1
          (newSoilCollection (newSoilCollection h0).1).2 := by
  have hb : soilListOf (newSoilCollection (newSoilCollection h0).1).1
      (newSoilCollection (newSoilCollection h0).1).2 = default_soils := by
    unfold newSoilCollection soilListOf
    dsimp only
    rw [List.getElem?_append_right (le_refl (h0.cells ++ [default_soils]).length)]
    simp
  have hframe : soilListOf
      (add_soil_if_unique (newSoilCollection (newSoilCollection h0).1).1
        (newSoilCollection h0).2 soil).1
      (newSoilCollection (newSoilCollection h0).1).2
      = soilListOf (newSoilCollection (newSoilCollection h0).1).1
          (newSoilCollection (newSoilCollection h0).1).2 := by
    unfold add_soil_if_unique
    split
    · rfl
    · unfold soilListOf newSoilCollection
      dsimp only
      rw [List.getElem?_set_ne (by simp)]
  exact ⟨by simp [newSoilCollection], hframe.trans hb, hframe⟩

namespace CalculationOptions

/-- On every declared field name whose claim-derived toggle name is
itself a declared field, the replace-based derivation of the source
agrees with the prefix-removal wording of the claim.  (They differ only
on `load_factor_between_limit_1_and_2`, where `factor_` occurs
mid-name; neither derived name is a declared field there.) -/
theorem find_toggle_eq_claim_on_fields :
    model_fields.all (fun f =>
      if toggleNameOfClaim f ∈ model_fields
      then find_toggle f == toggleNameOfClaim f
      else true) = true := by decide

theorem dictUpdate_cons {V : Type} (d : PyDict V) (kv : String × V) (rest : PyDict V) :
    dictUpdate d (kv :: rest) = dictUpdate (dictSet d kv.1 kv.2) rest := rfl

theorem mem_dictKeys_dictSet_self {V : Type} (d : PyDict V) (k : String) (v : V) :
    k ∈ dictKeys (dictSet d k v) := by
  rw [dictKeys_dictSet]
  split
  · assumption
  · simp

theorem mem_dictKeys_dictSet_of_mem {V : Type} (d : PyDict V) (k k' : String) (v : V)
    (h : k' ∈ dictKeys d) : k' ∈ dictKeys (dictSet d k v) := by
  rw [dictKeys_dictSet]
  split
  · exact h
  · exact List.mem_append_left _ h

theorem dictSet_forall_vals {V : Type} (P : V → Prop) (d : PyDict V) (k : String) (v : V)
    (hd : ∀ kv ∈ d, P kv.2) (hv : P v) : ∀ kv ∈ dictSet d k v, P kv.2 := by
  intro kv hkv
  unfold dictSet at hkv
  split at hkv
  · obtain ⟨x, hx, rfl⟩ := List.mem_map.mp hkv
    by_cases hxk : x.1 = k
    · simpa [hxk] using hv
    · simpa [hxk] using hd x hx
  · rcases List.mem_append.mp hkv with h | h
    · exact hd kv h
    · simp only [List.mem_singleton] at h
      subst h
      exact hv

theorem dictFind_dictUpdate_not_mem {V : Type} (d td : PyDict V) (k : String)
    (h : k ∉ dictKeys td) : dictFind k (dictUpdate d td) = dictFind k d := by
  induction td generalizing d with
  | nil => rfl
  | cons kv rest ih =>
    simp only [dictKeys, List.map_cons, List.mem_cons] at h
    push_neg at h
    rw [dictUpdate_cons, ih _ h.2]
    exact dictFind_dictSet_ne d kv.1 k kv.2 h.1

theorem dictFind_dictUpdate_const {V : Type} (d td : PyDict V) (k : String) (v : V)
    (hmem : k ∈ dictKeys td) (hval : ∀ kv ∈ td, kv.2 = v) :
    dictFind k (dictUpdate d td) = some v := by
  induction td generalizing d with
  | nil => simp [dictKeys] at hmem
  | cons kv rest ih =>
    rw [dictUpdate_cons]
    by_cases hk : k ∈ dictKeys rest
    · exact ih _ hk (fun x hx => hval x (List.mem_cons_of_mem kv hx))
    · have hk1 : kv.1 = k := by
        simp only [dictKeys, List.map_cons, List.mem_cons] at hmem
        rcases hmem with h | h
        · exact h.symm
        · exact absurd h hk
      rw [dictFind_dictUpdate_not_mem _ _ _ hk, hk1,
        hval kv (List.mem_cons_self kv rest)]
      exact dictFind_dictSet_self d k v

theorem collectToggles_vals (kwargs : List (String × PyVal)) :
    ∀ kv ∈ collectToggles kwargs, kv.2 = PyVal.pybool GeoBool.TRUE := by
  unfold collectToggles
  have hgen : ∀ (l : List (String × PyVal)) (acc : PyDict PyVal),
      (∀ kv ∈ acc, kv.2 = PyVal.pybool GeoBool.TRUE) →
      ∀ kv ∈ l.foldl
        (fun toggles kv =>
          if kv.2 = PyVal.pynone then toggles
          else if find_toggle kv.1 ∈ model_fields then
            dictSet toggles (find_toggle kv.1) (PyVal.pybool GeoBool.TRUE)
          else toggles)
        acc, kv.2 = PyVal.pybool GeoBool.TRUE := by
    intro l
    induction l with
    | nil => intro acc h; exact h
    | cons p rest ih =>
      intro acc h
      rw [List.foldl_cons]
      apply ih
      by_cases h1 : p.2 = PyVal.pynone
      · simpa [h1] using h
      · by_cases h2 : find_toggle p.1 ∈ model_fields
        · simp only [if_neg h1, if_pos h2]
          exact dictSet_forall_vals (fun x => x = PyVal.pybool GeoBool.TRUE) acc _ _ h rfl
        · simpa [h1, h2] using h
  exact hgen kwargs [] (by simp)

theorem collectToggles_mem (kwargs : List (String × PyVal)) (f : String) (v : PyVal)
    (hm : (f, v) ∈ kwargs) (hv : v ≠ PyVal.pynone)
    (hf : find_toggle f ∈ model_fields) :
    find_toggle f ∈ dictKeys (collectToggles kwargs) := by
  unfold collectToggles
  have hgen : ∀ (l : List (String × PyVal)) (acc : PyDict PyVal),
      ((f, v) ∈ l ∨ find_toggle f ∈ dictKeys acc) →
      find_toggle f ∈ dictKeys (l.foldl
        (fun toggles kv =>
          if kv.2 = PyVal.pynone then toggles
          else if find_toggle kv.1 ∈ model_fields then
            dictSet toggles (find_toggle kv.1) (PyVal.pybool GeoBool.TRUE)
          else toggles)
        acc) := by
    intro l
    induction l with
    | nil =>
      intro acc h
      rcases h with h | h
      · cases h
      · exact h
    | cons p rest ih =>
      intro acc h
      rw [List.foldl_cons]
      apply ih
      rcases h with h | h
      · rcases List.mem_cons.mp h with rfl | h'
        · right
          rw [if_neg hv, if_pos hf]
          exact mem_dictKeys_dictSet_self acc _ _
        · left
          exact h'
      · right
        by_cases h1 : p.2 = PyVal.pynone
        · simpa [h1] using h
        · by_cases h2 : find_toggle p.1 ∈ model_fields
          · simp only [if_neg h1, if_pos h2]
            exact mem_dictKeys_dictSet_of_mem acc _ _ _ h
          · simpa [h1, h2] using h
  exact hgen kwargs [] (Or.inl hm)

/-- C4: a keyword `f` passed with a non-None value whose factor-stripped
name `is_<...>_overruled` is a declared field of `CalculationOptions`
forces that toggle field to `Bool.TRUE` on the constructed object, even
when the caller explicitly passed a different value for the toggle
itself.  (Keywords range over declared fields: the pydantic base class
rejects unknown keyword names, so no object is constructed otherwise.) -/
theorem c4_calculation_options_toggle (kwargs : List (String × PyVal))
    (f : String) (v : PyVal)
    (hmem : (f, v) ∈ kwargs) (hv : v ≠ PyVal.pynone)
    (hfield : f ∈ model_fields)
    (htoggle : toggleNameOfClaim f ∈ model_fields) :
    init kwargs (toggleNameOfClaim f) = PyVal.pybool GeoBool.TRUE := by
  have hbridge : find_toggle f = toggleNameOfClaim f := by
    have hp := List.all_eq_true.mp find_toggle_eq_claim_on_fields f hfield
    rw [if_pos htoggle] at hp
    exact eq_of_beq hp
  have htoggle' : find_toggle f ∈ model_fields := by
    rw [hbridge]
    exact htoggle
  rw [← hbridge]
  unfold init
  rw [dictFind_dictUpdate_const kwargs (collectToggles kwargs) (find_toggle f)
    (PyVal.pybool GeoBool.TRUE)
    (collectToggles_mem kwargs f v hmem hv htoggle')
    (collectToggles_vals kwargs)]

theorem c4_calculation_options_toggle_witness :
    init [("factor_xi3", PyVal.pynum 3), ("is_xi3_overruled", PyVal.pybool GeoBool.FALSE)]
      "is_xi3_overruled" = PyVal.pybool GeoBool.TRUE := by
  have h := c4_calculation_options_toggle
    [("factor_xi3", PyVal.pynum 3), ("is_xi3_overruled", PyVal.pybool GeoBool.FALSE)]
    "factor_xi3" (PyVal.pynum 3) (by simp) (by decide) (by decide) (by decide)
  rw [show toggleNameOfClaim "factor_xi3" = "is_xi3_overruled" from by decide] at h
  exact h

end CalculationOptions

end DFoundations

end GeoLib
